import Mathlib

/-!
Verification of the FheAsAService confidential batch-aggregation contract
(FheAsAServiceFHE, embedded in src/frontend/web/src/App.tsx, lines 719-971).

Modelling choices:
* FHE ciphertext handles (euint32 / ebool) are modelled symbolically as
  expression trees: every homomorphic operation (add, div, or, ge) builds a
  fresh node, mirroring the fact that the fhevm coprocessor derives a fresh
  handle for every operation.  Decryption is modelled by evaluating the tree
  over the plaintexts (eval), with euint32 arithmetic taken modulo 2^32.
* keccak256-based commitments are modelled by an idealised collision-free
  hash: HashVal.keccak carries its preimage, so equal hashes have equal
  preimages and a computed hash is never the default zero value.  This is the
  standard idealisation of a cryptographic hash.
* Addresses, timestamps and request ids are natural numbers.  block.timestamp,
  msg.sender and the oracle-assigned requestId are explicit parameters.
* Solidity revert semantics: each external function returns
  Except Err (ContractState x List Event); an error means the transaction
  reverts and the pre-state is kept (applyOp).
* FHE.checkSignatures is an external collaborator; whether it accepts the
  (cleartexts, proof) pair is passed in as a boolean proofOk.
* The bytes cleartexts argument is modelled as the list of its 32-byte words;
  abi.decode of a bool word rejects values other than 0 and 1 (Err.Panic
  models a low-level abi revert).
* The isInitialized checks of _initIfNeeded depend on coprocessor state that
  is outside the contract; they are passed in as booleans (dataInit, flagInit
  for the two handles, fheInit for FHE.isInitialized).
-/

namespace FheAsAService

/-- Symbolic euint32 ciphertext handle (expression tree over FHE ops). -/
inductive EU32 where
  | asEuint32 : Nat → EU32
  | add : EU32 → EU32 → EU32
  | div : EU32 → EU32 → EU32
deriving DecidableEq

/-- Symbolic ebool ciphertext handle. -/
inductive EBool where
  | asEbool : Bool → EBool
  | or : EBool → EBool → EBool
  | ge : EU32 → EU32 → EBool
deriving DecidableEq

/-- A bytes32 ciphertext handle as stored in the cts array (toBytes32). -/
inductive Ct where
  | ofEU32 : EU32 → Ct
  | ofEBool : EBool → Ct
deriving DecidableEq

/-- Idealised keccak256 value: zero is the default storage value, keccak
carries the abi.encode preimage (cts array and address(this)). -/
inductive HashVal where
  | zero : HashVal
  | keccak : List Ct → Nat → HashVal
deriving DecidableEq

/-- Plaintext of a euint32 handle (decryption), arithmetic mod 2^32.
Division is Nat division (division by an encrypted zero never occurs on the
paths exercised here because the fold guards dataCount > 0). -/
def EU32.eval : EU32 → Nat
  | .asEuint32 n => n % 2 ^ 32
  | .add a b => (a.eval + b.eval) % 2 ^ 32
  | .div a b => a.eval / b.eval

/-- Plaintext of an ebool handle. -/
def EBool.eval : EBool → Bool
  | .asEbool b => b
  | .or a b => a.eval || b.eval
  | .ge a b => decide (b.eval ≤ a.eval)

/-- Decrypting a packed bytes32 output: booleans arrive as the word 1 or 0. -/
def Ct.decrypt : Ct → Nat
  | .ofEU32 x => x.eval
  | .ofEBool b => if b.eval then 1 else 0

/-- struct DecryptionContext { uint256 batchId; bytes32 stateHash; bool processed; } -/
structure DecryptionContext where
  batchId : Nat
  stateHash : HashVal
  processed : Bool
deriving DecidableEq

/-- The custom errors of the contract, plus Panic for low-level abi reverts. -/
inductive Err where
  | NotOwner
  | NotProvider
  | Paused
  | CooldownActive
  | BatchClosed
  | InvalidBatch
  | ReplayAttempt
  | StateMismatch
  | InvalidProof
  | AlreadyInitialized
  | NotInitialized
  | Panic
deriving DecidableEq

/-- The events of the contract. -/
inductive Event where
  | OwnershipTransferred : Nat → Nat → Event
  | ProviderAdded : Nat → Event
  | ProviderRemoved : Nat → Event
  | CooldownSet : Nat → Nat → Event
  | ContractPaused : Event
  | ContractUnpaused : Event
  | BatchOpened : Nat → Event
  | BatchClosed : Nat → Event
  | DataSubmitted : Nat → Nat → Nat → Event
  | DecryptionRequested : Nat → Nat → HashVal → Event
  | DecryptionCompleted : Nat → Nat → List Nat → List Bool → Event
deriving DecidableEq

/-- The storage of FheAsAServiceFHE.  self models address(this). -/
structure ContractState where
  owner : Nat
  isProvider : Nat → Bool
  lastSubmissionTime : Nat → Nat
  lastDecryptionRequestTime : Nat → Nat
  cooldownSeconds : Nat
  paused : Bool
  currentBatchId : Nat
  batchOpen : Bool
  decryptionContexts : Nat → DecryptionContext
  encryptedData : Nat → EU32
  encryptedFlags : Nat → EBool
  dataCount : Nat
  self : Nat

/-- Constructor: owner = deployer, owner is a provider, cooldown 60 s,
batch id 1, batch closed, empty ledger, all mappings at their defaults. -/
def initialState (deployer self : Nat) : ContractState where
  owner := deployer
  isProvider := fun a => decide (a = deployer)
  lastSubmissionTime := fun _ => 0
  lastDecryptionRequestTime := fun _ => 0
  cooldownSeconds := 60
  paused := false
  currentBatchId := 1
  batchOpen := false
  decryptionContexts := fun _ => ⟨0, HashVal.zero, false⟩
  encryptedData := fun _ => EU32.asEuint32 0
  encryptedFlags := fun _ => EBool.asEbool false
  dataCount := 0
  self := self

/-- The loop of requestAggregateDecryption and myCallback, for indices
1..n: running sum, running count, running or of the flags. -/
def foldAgg (s : ContractState) : Nat → EU32 × EU32 × EBool
  | 0 => (EU32.asEuint32 0, EU32.asEuint32 0, EBool.asEbool false)
  | n + 1 =>
    let p := foldAgg s n
    (p.1.add (s.encryptedData (n + 1)),
     p.2.1.add (EU32.asEuint32 1),
     p.2.2.or (s.encryptedFlags (n + 1)))

/-- The cts array built by both requestAggregateDecryption and myCallback:
[average, anyFlagTrue, isAverageHigh] where average = sum / count and
isAverageHigh = average >= 100. -/
def outputCts (s : ContractState) : List Ct :=
  let p := foldAgg s s.dataCount
  let average := p.1.div p.2.1
  let isAverageHigh := EBool.ge average (EU32.asEuint32 100)
  [Ct.ofEU32 average, Ct.ofEBool p.2.2, Ct.ofEBool isAverageHigh]

/-- function _hashCiphertexts: keccak256(abi.encode(cts, address(this))). -/
def hashCiphertexts (cts : List Ct) (self : Nat) : HashVal :=
  HashVal.keccak cts self

/-- function transferOwnership. -/
def transferOwnership (s : ContractState) (sender newOwner : Nat) :
    Except Err (ContractState × List Event) :=
  if sender ≠ s.owner then .error .NotOwner
  else .ok ({ s with owner := newOwner },
    [Event.OwnershipTransferred s.owner newOwner])

/-- function addProvider. -/
def addProvider (s : ContractState) (sender p : Nat) :
    Except Err (ContractState × List Event) :=
  if sender ≠ s.owner then .error .NotOwner
  else if s.isProvider p then .ok (s, [])
  else .ok ({ s with isProvider := fun a => if a = p then true else s.isProvider a },
    [Event.ProviderAdded p])

/-- function removeProvider. -/
def removeProvider (s : ContractState) (sender p : Nat) :
    Except Err (ContractState × List Event) :=
  if sender ≠ s.owner then .error .NotOwner
  else if s.isProvider p then
    .ok ({ s with isProvider := fun a => if a = p then false else s.isProvider a },
      [Event.ProviderRemoved p])
  else .ok (s, [])

/-- function setCooldown. -/
def setCooldown (s : ContractState) (sender n : Nat) :
    Except Err (ContractState × List Event) :=
  if sender ≠ s.owner then .error .NotOwner
  else .ok ({ s with cooldownSeconds := n },
    [Event.CooldownSet s.cooldownSeconds n])

/-- function pause. -/
def pause (s : ContractState) (sender : Nat) :
    Except Err (ContractState × List Event) :=
  if sender ≠ s.owner then .error .NotOwner
  else if s.paused then .error .Paused
  else .ok ({ s with paused := true }, [Event.ContractPaused])

/-- function unpause. -/
def unpause (s : ContractState) (sender : Nat) :
    Except Err (ContractState × List Event) :=
  if sender ≠ s.owner then .error .NotOwner
  else .ok ({ s with paused := false }, [Event.ContractUnpaused])

/-- function openBatch: if a batch is already open the id is bumped. -/
def openBatch (s : ContractState) (sender : Nat) :
    Except Err (ContractState × List Event) :=
  if sender ≠ s.owner then .error .NotOwner
  else if s.paused then .error .Paused
  else
    let newId := if s.batchOpen then s.currentBatchId + 1 else s.currentBatchId
    .ok ({ s with currentBatchId := newId, batchOpen := true },
      [Event.BatchOpened newId])

/-- function closeBatch. -/
def closeBatch (s : ContractState) (sender : Nat) :
    Except Err (ContractState × List Event) :=
  if sender ≠ s.owner then .error .NotOwner
  else if s.paused then .error .Paused
  else if ¬ s.batchOpen then .error .BatchClosed
  else .ok ({ s with batchOpen := false }, [Event.BatchClosed s.currentBatchId])

/-- function submitEncryptedData.  Modifier order as in the source:
onlyProvider, whenNotPaused, submissionCooldown, then the body (batch-open
check, the two _initIfNeeded checks, append, stamp cooldown, emit). -/
def submitEncryptedData (s : ContractState) (sender now : Nat)
    (data : EU32) (flag : EBool) (dataInit flagInit fheInit : Bool) :
    Except Err (ContractState × List Event) :=
  if ¬ s.isProvider sender then .error .NotProvider
  else if s.paused then .error .Paused
  else if now < s.lastSubmissionTime sender + s.cooldownSeconds then
    .error .CooldownActive
  else if ¬ s.batchOpen then .error .BatchClosed
  else if dataInit then .error .AlreadyInitialized
  else if ¬ fheInit then .error .NotInitialized
  else if flagInit then .error .AlreadyInitialized
  else if ¬ fheInit then .error .NotInitialized
  else
    .ok ({ s with
      dataCount := s.dataCount + 1
      encryptedData := fun i => if i = s.dataCount + 1 then data else s.encryptedData i
      encryptedFlags := fun i => if i = s.dataCount + 1 then flag else s.encryptedFlags i
      lastSubmissionTime := fun a => if a = sender then now else s.lastSubmissionTime a },
      [Event.DataSubmitted sender s.currentBatchId (s.dataCount + 1)])

/-- function requestAggregateDecryption.  Modifier order: whenNotPaused,
decryptionRequestCooldown, then the body.  requestId is the id assigned by
the external oracle (FHE.requestDecryption). -/
def requestAggregateDecryption (s : ContractState) (sender now requestId : Nat) :
    Except Err (ContractState × List Event) :=
  if s.paused then .error .Paused
  else if now < s.lastDecryptionRequestTime sender + s.cooldownSeconds then
    .error .CooldownActive
  else if s.dataCount = 0 then .error .InvalidBatch
  else if s.batchOpen then .error .BatchClosed
  else
    .ok ({ s with
      decryptionContexts := fun r =>
        if r = requestId then
          ⟨s.currentBatchId, hashCiphertexts (outputCts s) s.self, false⟩
        else s.decryptionContexts r
      lastDecryptionRequestTime := fun a =>
        if a = sender then now else s.lastDecryptionRequestTime a },
      [Event.DecryptionRequested requestId s.currentBatchId
        (hashCiphertexts (outputCts s) s.self)])

/-- abi.decode(cleartexts.slice(32*i, 32), (uint256)). -/
def decodeUint (cleartexts : List Nat) (i : Nat) : Except Err Nat :=
  match cleartexts.get? i with
  | some w => .ok w
  | none => .error .Panic

/-- abi.decode(cleartexts.slice(32*i, 32), (bool)): only the words 0 and 1
decode; anything else is a low-level abi revert. -/
def decodeBoolWord (cleartexts : List Nat) (i : Nat) : Except Err Bool :=
  match cleartexts.get? i with
  | some 0 => .ok false
  | some 1 => .ok true
  | some _ => .error .Panic
  | none => .error .Panic

/-- function myCallback: replay guard, state verification (re-fold and
recompute the commitment), proof verification, decode and finalize.
proofOk models whether FHE.checkSignatures accepts (cleartexts, proof). -/
def myCallback (s : ContractState) (requestId : Nat) (cleartexts : List Nat)
    (proofOk : Bool) : Except Err (ContractState × List Event) :=
  if (s.decryptionContexts requestId).processed then .error .ReplayAttempt
  else
    if hashCiphertexts (outputCts s) s.self ≠ (s.decryptionContexts requestId).stateHash then
      .error .StateMismatch
    else if ¬ proofOk then .error .InvalidProof
    else
      match decodeUint cleartexts 0 with
      | .error e => .error e
      | .ok r0 =>
        match decodeBoolWord cleartexts 1 with
        | .error e => .error e
        | .ok f0 =>
          match decodeUint cleartexts 2 with
          | .error e => .error e
          | .ok r1 =>
            .ok ({ s with
              decryptionContexts := fun r =>
                if r = requestId then
                  { s.decryptionContexts requestId with processed := true }
                else s.decryptionContexts r },
              [Event.DecryptionCompleted requestId
                (s.decryptionContexts requestId).batchId [r0, r1] [f0]])

/-- One external transaction against the contract. -/
inductive Op where
  | transferOwnership : Nat → Nat → Op
  | addProvider : Nat → Nat → Op
  | removeProvider : Nat → Nat → Op
  | setCooldown : Nat → Nat → Op
  | pause : Nat → Op
  | unpause : Nat → Op
  | openBatch : Nat → Op
  | closeBatch : Nat → Op
  | submit : Nat → Nat → EU32 → EBool → Bool → Bool → Bool → Op
  | request : Nat → Nat → Nat → Op
  | callback : Nat → List Nat → Bool → Op
deriving DecidableEq

/-- Dispatch of one transaction. -/
def exec (s : ContractState) : Op → Except Err (ContractState × List Event)
  | .transferOwnership sender newOwner => transferOwnership s sender newOwner
  | .addProvider sender p => addProvider s sender p
  | .removeProvider sender p => removeProvider s sender p
  | .setCooldown sender n => setCooldown s sender n
  | .pause sender => pause s sender
  | .unpause sender => unpause s sender
  | .openBatch sender => openBatch s sender
  | .closeBatch sender => closeBatch s sender
  | .submit sender now d f a b c => submitEncryptedData s sender now d f a b c
  | .request sender now reqId => requestAggregateDecryption s sender now reqId
  | .callback reqId ct pf => myCallback s reqId ct pf

/-- EVM revert semantics: a reverted transaction keeps the pre-state and
emits nothing. -/
def applyOp (s : ContractState) (op : Op) : ContractState × List Event :=
  match exec s op with
  | .ok r => r
  | .error _ => (s, [])

/-- Run a sequence of transactions, collecting the emitted events. -/
def runTrace (s : ContractState) : List Op → ContractState × List Event
  | [] => (s, [])
  | op :: ops =>
    let p := applyOp s op
    let q := runTrace p.1 ops
    (q.1, p.2 ++ q.2)

/-- The events of a transaction result (empty on revert). -/
def emittedEvents (r : Except Err (ContractState × List Event)) : List Event :=
  match r with
  | .ok p => p.2
  | .error _ => []

/-- The data ids carried by the DataSubmitted events of an event list. -/
def submittedIds (evs : List Event) : List Nat :=
  evs.filterMap fun e =>
    match e with
    | Event.DataSubmitted _ _ id => some id
    | _ => none

/-! ### Concrete fixtures -/

/-- A reachable storage snapshot: three contributions with plaintexts
10, 20, 30 and flags false, false, true, batch 1 closed, not paused,
owner 1, contract address 7, cooldown 60 s. -/
def demoState : ContractState where
  owner := 1
  isProvider := fun a => decide (a = 1)
  lastSubmissionTime := fun _ => 0
  lastDecryptionRequestTime := fun _ => 0
  cooldownSeconds := 60
  paused := false
  currentBatchId := 1
  batchOpen := false
  decryptionContexts := fun _ => ⟨0, HashVal.zero, false⟩
  encryptedData := fun i =>
    if i = 1 then EU32.asEuint32 10
    else if i = 2 then EU32.asEuint32 20
    else if i = 3 then EU32.asEuint32 30
    else EU32.asEuint32 0
  encryptedFlags := fun i => if i = 3 then EBool.asEbool true else EBool.asEbool false
  dataCount := 3
  self := 7

/-- demoState with the current batch open. -/
def openDemoState : ContractState :=
  { demoState with batchOpen := true }

/-- demoState after a successful requestAggregateDecryption by address 1 at
time 100, with oracle-assigned request id 5. -/
def requestedState : ContractState :=
  (applyOp demoState (Op.request 1 100 5)).1

/-! ### Helper lemmas about the fold -/

/-- The count component of the fold depends only on the loop bound. -/
def countExpr : Nat → EU32
  | 0 => EU32.asEuint32 0
  | n + 1 => (countExpr n).add (EU32.asEuint32 1)

/-- Node count of a euint32 expression tree. -/
def EU32.size : EU32 → Nat
  | .asEuint32 _ => 1
  | .add a b => a.size + b.size + 1
  | .div a b => a.size + b.size + 1

theorem foldAgg_count (s : ContractState) : ∀ n, (foldAgg s n).2.1 = countExpr n := by
  intro n
  induction n with
  | zero => rfl
  | succ n ih => simp [foldAgg, countExpr, ih]

theorem size_countExpr : ∀ n, (countExpr n).size = 2 * n + 1 := by
  intro n
  induction n with
  | zero => rfl
  | succ n ih => simp [countExpr, EU32.size, ih]; omega

theorem countExpr_injective {m n : Nat} (h : countExpr m = countExpr n) : m = n := by
  have hs := congrArg EU32.size h
  rw [size_countExpr, size_countExpr] at hs
  omega

/-- Two storage snapshots with different dataCount commit to different
ciphertext lists: the count handle built by the fold differs, hence so do
the average handle and the keccak commitment. -/
theorem hash_ne_of_dataCount_ne {s t : ContractState}
    (h : s.dataCount ≠ t.dataCount) :
    hashCiphertexts (outputCts s) s.self ≠ hashCiphertexts (outputCts t) t.self := by
  intro heq
  simp only [hashCiphertexts, HashVal.keccak.injEq, outputCts] at heq
  have hcts := heq.1
  simp only [List.cons.injEq, Ct.ofEU32.injEq, EU32.div.injEq] at hcts
  have hcount := hcts.1.2
  rw [foldAgg_count, foldAgg_count] at hcount
  exact h (countExpr_injective hcount)

/-- A computed commitment is never the default-zero stateHash. -/
theorem hash_ne_zero (cts : List Ct) (self : Nat) :
    hashCiphertexts cts self ≠ HashVal.zero := by
  simp [hashCiphertexts]

/-- The fold only depends on the ledger fields of the state. -/
theorem foldAgg_congr {s t : ContractState}
    (hd : s.encryptedData = t.encryptedData)
    (hf : s.encryptedFlags = t.encryptedFlags) :
    ∀ n, foldAgg s n = foldAgg t n := by
  intro n
  induction n with
  | zero => rfl
  | succ n ih => simp [foldAgg, ih, hd, hf]

/-- The committed ciphertext list only depends on the ledger fields. -/
theorem outputCts_congr {s t : ContractState}
    (hd : s.encryptedData = t.encryptedData)
    (hf : s.encryptedFlags = t.encryptedFlags)
    (hc : s.dataCount = t.dataCount) :
    outputCts s = outputCts t := by
  simp [outputCts, foldAgg_congr hd hf, hc]

/-- A reverted transaction keeps the state and emits nothing; otherwise
applyOp is the successful execution. -/
theorem applyOp_eq (s : ContractState) (op : Op) :
    applyOp s op = (s, []) ∨ exec s op = .ok (applyOp s op) := by
  unfold applyOp
  cases h : exec s op with
  | ok p => exact Or.inr rfl
  | error e => exact Or.inl rfl

set_option maxHeartbeats 1600000 in
/-- Facts about every successful transaction, by case analysis on the
transaction kind: only submitEncryptedData grows dataCount or emits
DataSubmitted, and it appends exactly the id dataCount + 1; the stored
decryption context of a request id is only touched by a request with that id
or a callback with that id; and a processed flag that is true stays true
under every transaction that is not a request reusing that id. -/
theorem exec_ok_facts {s s' : ContractState} {evs : List Event} {op : Op}
    (h : exec s op = .ok (s', evs)) :
    ((∀ sender now d f di fi fh, op ≠ .submit sender now d f di fi fh) →
      s'.dataCount = s.dataCount ∧ submittedIds evs = []) ∧
    (∀ sender now d f di fi fh, op = .submit sender now d f di fi fh →
      s'.dataCount = s.dataCount + 1 ∧ submittedIds evs = [s.dataCount + 1] ∧
      s'.decryptionContexts = s.decryptionContexts) ∧
    (∀ r, (∀ sender now, op ≠ .request sender now r) →
      (∀ ct pf, op ≠ .callback r ct pf) →
      s'.decryptionContexts r = s.decryptionContexts r) ∧
    (∀ r, (s.decryptionContexts r).processed = true →
      (∀ sender now, op ≠ .request sender now r) →
      (s'.decryptionContexts r).processed = true) := by
  cases op with
  | transferOwnership a b =>
    simp only [exec, transferOwnership] at h
    repeat' split at h
    all_goals try cases h
    all_goals refine ⟨fun _ => ⟨rfl, rfl⟩, ?_, fun r _ _ => rfl, fun r hp _ => hp⟩
    all_goals intro _ _ _ _ _ _ _ hh
    all_goals cases hh
  | addProvider a b =>
    simp only [exec, addProvider] at h
    repeat' split at h
    all_goals try cases h
    all_goals refine ⟨fun _ => ⟨rfl, rfl⟩, ?_, fun r _ _ => rfl, fun r hp _ => hp⟩
    all_goals intro _ _ _ _ _ _ _ hh
    all_goals cases hh
  | removeProvider a b =>
    simp only [exec, removeProvider] at h
    repeat' split at h
    all_goals try cases h
    all_goals refine ⟨fun _ => ⟨rfl, rfl⟩, ?_, fun r _ _ => rfl, fun r hp _ => hp⟩
    all_goals intro _ _ _ _ _ _ _ hh
    all_goals cases hh
  | setCooldown a b =>
    simp only [exec, setCooldown] at h
    repeat' split at h
    all_goals try cases h
    all_goals refine ⟨fun _ => ⟨rfl, rfl⟩, ?_, fun r _ _ => rfl, fun r hp _ => hp⟩
    all_goals intro _ _ _ _ _ _ _ hh
    all_goals cases hh
  | pause a =>
    simp only [exec, pause] at h
    repeat' split at h
    all_goals try cases h
    all_goals refine ⟨fun _ => ⟨rfl, rfl⟩, ?_, fun r _ _ => rfl, fun r hp _ => hp⟩
    all_goals intro _ _ _ _ _ _ _ hh
    all_goals cases hh
  | unpause a =>
    simp only [exec, unpause] at h
    repeat' split at h
    all_goals try cases h
    all_goals refine ⟨fun _ => ⟨rfl, rfl⟩, ?_, fun r _ _ => rfl, fun r hp _ => hp⟩
    all_goals intro _ _ _ _ _ _ _ hh
    all_goals cases hh
  | openBatch a =>
    simp only [exec, openBatch] at h
    repeat' split at h
    all_goals try cases h
    all_goals refine ⟨fun _ => ⟨rfl, rfl⟩, ?_, fun r _ _ => rfl, fun r hp _ => hp⟩
    all_goals intro _ _ _ _ _ _ _ hh
    all_goals cases hh
  | closeBatch a =>
    simp only [exec, closeBatch] at h
    repeat' split at h
    all_goals try cases h
    all_goals refine ⟨fun _ => ⟨rfl, rfl⟩, ?_, fun r _ _ => rfl, fun r hp _ => hp⟩
    all_goals intro _ _ _ _ _ _ _ hh
    all_goals cases hh
  | submit sender now d f di fi fh =>
    simp only [exec, submitEncryptedData] at h
    repeat' split at h
    all_goals try cases h
    exact ⟨fun hno => absurd rfl (hno sender now d f di fi fh),
      fun _ _ _ _ _ _ _ _ => ⟨rfl, rfl, rfl⟩, fun r _ _ => rfl, fun r hp _ => hp⟩
  | request sender now rq =>
    simp only [exec, requestAggregateDecryption] at h
    repeat' split at h
    all_goals try cases h
    refine ⟨fun _ => ⟨rfl, rfl⟩, ?_, ?_, ?_⟩
    · intro _ _ _ _ _ _ _ hh
      cases hh
    · intro r hnr _
      have hr : r ≠ rq := fun hh => hnr sender now (by rw [hh])
      simp [hr]
    · intro r hp hnr
      have hr : r ≠ rq := fun hh => hnr sender now (by rw [hh])
      simp [hr, hp]
  | callback rq ct pf =>
    simp only [exec, myCallback] at h
    repeat' split at h
    all_goals try cases h
    refine ⟨fun _ => ⟨rfl, rfl⟩, ?_, ?_, ?_⟩
    · intro _ _ _ _ _ _ _ hh
      cases hh
    · intro r _ hnc
      have hr : r ≠ rq := fun hh => hnc ct pf (by rw [hh])
      simp [hr]
    · intro r hp _
      by_cases hr : r = rq
      · subst hr
        simp
      · simp [hr, hp]

/-- One transaction: dataCount never decreases, and the DataSubmitted events
it emits carry exactly the ids dataCount + 1, ..., new dataCount. -/
theorem applyOp_dataCount_ids (s : ContractState) (op : Op) :
    s.dataCount ≤ (applyOp s op).1.dataCount ∧
    submittedIds (applyOp s op).2 =
      List.range' (s.dataCount + 1) ((applyOp s op).1.dataCount - s.dataCount) := by
  cases h : exec s op with
  | error e =>
    have ha : applyOp s op = (s, []) := by unfold applyOp; rw [h]
    rw [ha]
    exact ⟨le_refl _, by rw [Nat.sub_self]; rfl⟩
  | ok p =>
    have ha : applyOp s op = p := by unfold applyOp; rw [h]
    have hf := exec_ok_facts (show exec s op = Except.ok (p.1, p.2) from h)
    rw [ha]
    cases op with
    | submit sender now d f di fi2 fh =>
      obtain ⟨h1, h2, _⟩ := hf.2.1 sender now d f di fi2 fh rfl
      refine ⟨by rw [h1]; omega, ?_⟩
      rw [h2, h1]
      have hone : s.dataCount + 1 - s.dataCount = 1 := by omega
      rw [hone, List.range'_one]
    | transferOwnership a b =>
      obtain ⟨h1, h2⟩ := hf.1 (fun _ _ _ _ _ _ _ hh => by cases hh)
      exact ⟨le_of_eq h1.symm, by rw [h2, h1, Nat.sub_self]; rfl⟩
    | addProvider a b =>
      obtain ⟨h1, h2⟩ := hf.1 (fun _ _ _ _ _ _ _ hh => by cases hh)
      exact ⟨le_of_eq h1.symm, by rw [h2, h1, Nat.sub_self]; rfl⟩
    | removeProvider a b =>
      obtain ⟨h1, h2⟩ := hf.1 (fun _ _ _ _ _ _ _ hh => by cases hh)
      exact ⟨le_of_eq h1.symm, by rw [h2, h1, Nat.sub_self]; rfl⟩
    | setCooldown a b =>
      obtain ⟨h1, h2⟩ := hf.1 (fun _ _ _ _ _ _ _ hh => by cases hh)
      exact ⟨le_of_eq h1.symm, by rw [h2, h1, Nat.sub_self]; rfl⟩
    | pause a =>
      obtain ⟨h1, h2⟩ := hf.1 (fun _ _ _ _ _ _ _ hh => by cases hh)
      exact ⟨le_of_eq h1.symm, by rw [h2, h1, Nat.sub_self]; rfl⟩
    | unpause a =>
      obtain ⟨h1, h2⟩ := hf.1 (fun _ _ _ _ _ _ _ hh => by cases hh)
      exact ⟨le_of_eq h1.symm, by rw [h2, h1, Nat.sub_self]; rfl⟩
    | openBatch a =>
      obtain ⟨h1, h2⟩ := hf.1 (fun _ _ _ _ _ _ _ hh => by cases hh)
      exact ⟨le_of_eq h1.symm, by rw [h2, h1, Nat.sub_self]; rfl⟩
    | closeBatch a =>
      obtain ⟨h1, h2⟩ := hf.1 (fun _ _ _ _ _ _ _ hh => by cases hh)
      exact ⟨le_of_eq h1.symm, by rw [h2, h1, Nat.sub_self]; rfl⟩
    | request sender now rq =>
      obtain ⟨h1, h2⟩ := hf.1 (fun _ _ _ _ _ _ _ hh => by cases hh)
      exact ⟨le_of_eq h1.symm, by rw [h2, h1, Nat.sub_self]; rfl⟩
    | callback rq ct pf =>
      obtain ⟨h1, h2⟩ := hf.1 (fun _ _ _ _ _ _ _ hh => by cases hh)
      exact ⟨le_of_eq h1.symm, by rw [h2, h1, Nat.sub_self]; rfl⟩

/-- Over any transaction sequence, the DataSubmitted ids are exactly the
consecutive range from the starting dataCount + 1 up to the final one. -/
theorem runTrace_submittedIds (ops : List Op) : ∀ s : ContractState,
    s.dataCount ≤ (runTrace s ops).1.dataCount ∧
    submittedIds (runTrace s ops).2 =
      List.range' (s.dataCount + 1) ((runTrace s ops).1.dataCount - s.dataCount) := by
  induction ops with
  | nil =>
    intro s
    refine ⟨le_refl _, ?_⟩
    show submittedIds [] = List.range' (s.dataCount + 1) (s.dataCount - s.dataCount)
    rw [Nat.sub_self]
    rfl
  | cons op ops ih =>
    intro s
    obtain ⟨h1, h2⟩ := applyOp_dataCount_ids s op
    obtain ⟨h3, h4⟩ := ih (applyOp s op).1
    have hrt1 : (runTrace s (op :: ops)).1 = (runTrace (applyOp s op).1 ops).1 := rfl
    have hrt2 : (runTrace s (op :: ops)).2 =
        (applyOp s op).2 ++ (runTrace (applyOp s op).1 ops).2 := rfl
    refine ⟨by rw [hrt1]; omega, ?_⟩
    rw [hrt2, submittedIds, List.filterMap_append, ← submittedIds, ← submittedIds,
      h2, h4, hrt1]
    have harr : (applyOp s op).1.dataCount + 1 =
        (s.dataCount + 1) + ((applyOp s op).1.dataCount - s.dataCount) := by omega
    rw [harr, List.range'_append_1]
    congr 1
    omega

/-- A stored decryption context is unchanged by any transaction that is
neither a request nor a callback carrying its request id. -/
theorem runTrace_decryptionContexts (ops : List Op) : ∀ (s : ContractState) (r : Nat),
    (∀ sender now, Op.request sender now r ∉ ops) →
    (∀ ct pf, Op.callback r ct pf ∉ ops) →
    (runTrace s ops).1.decryptionContexts r = s.decryptionContexts r := by
  induction ops with
  | nil =>
    intro s r _ _
    rfl
  | cons op ops ih =>
    intro s r hnr hnc
    have hstep : (applyOp s op).1.decryptionContexts r = s.decryptionContexts r := by
      cases h : exec s op with
      | error e =>
        have ha : applyOp s op = (s, []) := by unfold applyOp; rw [h]
        rw [ha]
      | ok p =>
        have ha : applyOp s op = p := by unfold applyOp; rw [h]
        have hf := exec_ok_facts (show exec s op = Except.ok (p.1, p.2) from h)
        rw [ha]
        refine hf.2.2.1 r ?_ ?_
        · intro sender now hh
          exact hnr sender now (by rw [← hh]; exact List.mem_cons_self op ops)
        · intro ct pf hh
          exact hnc ct pf (by rw [← hh]; exact List.mem_cons_self op ops)
    have htail := ih (applyOp s op).1 r
      (fun sender now hm => hnr sender now (List.mem_cons_of_mem op hm))
      (fun ct pf hm => hnc ct pf (List.mem_cons_of_mem op hm))
    have hrt : (runTrace s (op :: ops)).1 = (runTrace (applyOp s op).1 ops).1 := rfl
    rw [hrt, htail, hstep]

/-- The processed latch is monotone: once true it stays true under every
transaction sequence that contains no request reusing the same request id
(fresh oracle request ids, the stated trust assumption of the protocol). -/
theorem runTrace_processed_mono (ops : List Op) : ∀ (s : ContractState) (r : Nat),
    (s.decryptionContexts r).processed = true →
    (∀ sender now, Op.request sender now r ∉ ops) →
    ((runTrace s ops).1.decryptionContexts r).processed = true := by
  induction ops with
  | nil =>
    intro s r hp _
    exact hp
  | cons op ops ih =>
    intro s r hp hnr
    have hstep : ((applyOp s op).1.decryptionContexts r).processed = true := by
      cases h : exec s op with
      | error e =>
        have ha : applyOp s op = (s, []) := by unfold applyOp; rw [h]
        rw [ha]
        exact hp
      | ok p =>
        have ha : applyOp s op = p := by unfold applyOp; rw [h]
        have hf := exec_ok_facts (show exec s op = Except.ok (p.1, p.2) from h)
        rw [ha]
        refine hf.2.2.2 r hp ?_
        intro sender now hh
        exact hnr sender now (by rw [← hh]; exact List.mem_cons_self op ops)
    have hrt : (runTrace s (op :: ops)).1 = (runTrace (applyOp s op).1 ops).1 := rfl
    rw [hrt]
    exact ih (applyOp s op).1 r hstep
      (fun sender now hm => hnr sender now (List.mem_cons_of_mem op hm))

/-! ### Claim theorems -/

/-- C4: on the stored contributions with plaintexts [10, 20, 30] and flags
[false, false, true] (demoState), the fold performed by
requestAggregateDecryption yields sum 60, count 3, average 20,
anyFlagSet true and thresholdExceeded false (threshold constant 100,
computed as average >= 100), and decrypting the three packed outputs in
order reproduces exactly these values ([20, 1, 0] with 1 = true, 0 = false);
the request itself succeeds and commits to exactly these three handles. -/
theorem fold_demo_roundtrip :
    (foldAgg demoState 3).1.eval = 60 ∧
    (foldAgg demoState 3).2.1.eval = 3 ∧
    ((foldAgg demoState 3).1.div (foldAgg demoState 3).2.1).eval = 20 ∧
    (foldAgg demoState 3).2.2.eval = true ∧
    (EBool.ge ((foldAgg demoState 3).1.div (foldAgg demoState 3).2.1)
      (EU32.asEuint32 100)).eval = false ∧
    (outputCts demoState).map Ct.decrypt = [20, 1, 0] ∧
    emittedEvents (requestAggregateDecryption demoState 1 100 5) =
      [Event.DecryptionRequested 5 1 (hashCiphertexts (outputCts demoState) 7)] := by
  decide

/-- C5: requestAggregateDecryption always reverts with the empty-batch error
when dataCount = 0 (source error name InvalidBatch, called EmptyBatch in the
design document) and with the batch-still-open error when dataCount > 0 and
the current batch is open (source error name BatchClosed, called
BatchStillOpen in the design document), stated under the guards that run
first in the source (not paused, request cooldown satisfied); the dataCount
check runs before the batch-open check. -/
theorem requestReveal_guard_errors (s : ContractState) (sender now reqId : Nat)
    (hp : s.paused = false)
    (hcd : s.lastDecryptionRequestTime sender + s.cooldownSeconds ≤ now) :
    (s.dataCount = 0 →
      requestAggregateDecryption s sender now reqId = .error .InvalidBatch) ∧
    (0 < s.dataCount → s.batchOpen = true →
      requestAggregateDecryption s sender now reqId = .error .BatchClosed) := by
  constructor
  · intro h0
    unfold requestAggregateDecryption
    simp [hp, h0, Nat.not_lt.mpr hcd]
  · intro hd hopen
    unfold requestAggregateDecryption
    simp [hp, hopen, Nat.not_lt.mpr hcd, Nat.pos_iff_ne_zero.mp hd]

/-- Witness for C5 at concrete states: the freshly deployed contract has
dataCount 0, and openDemoState has a contribution count of 3 with the batch
open. -/
theorem requestReveal_guard_errors_witness :
    requestAggregateDecryption (initialState 1 7) 1 100 5 = .error .InvalidBatch ∧
    requestAggregateDecryption openDemoState 1 100 5 = .error .BatchClosed := by
  constructor
  · exact (requestReveal_guard_errors (initialState 1 7) 1 100 5 (by decide)
      (by decide)).1 (by decide)
  · exact (requestReveal_guard_errors openDemoState 1 100 5 (by decide)
      (by decide)).2 (by decide) (by decide)

/-- C9: a requestId that was never issued has the default-zero context, whose
stateHash (zero) can never equal the keccak commitment recomputed from the
current storage, so myCallback reverts with StateMismatch independently of
the proof argument and before any finalization, and the transaction changes
no state and emits nothing. -/
theorem forged_callback_stateMismatch (s : ContractState) (reqId : Nat)
    (ct : List Nat) (pf : Bool)
    (hctx : s.decryptionContexts reqId = ⟨0, HashVal.zero, false⟩)
    (hdc : 0 < s.dataCount) :
    myCallback s reqId ct pf = .error .StateMismatch ∧
    applyOp s (Op.callback reqId ct pf) = (s, []) := by
  have h1 : myCallback s reqId ct pf = .error .StateMismatch := by
    unfold myCallback
    rw [hctx]
    simp [hashCiphertexts]
  refine ⟨h1, ?_⟩
  simp only [applyOp, exec]
  rw [h1]

/-- Witness for C9: request id 99 was never issued in demoState. -/
theorem forged_callback_stateMismatch_witness :
    myCallback demoState 99 [1, 2, 3] true = .error .StateMismatch ∧
    applyOp demoState (Op.callback 99 [1, 2, 3] true) = (demoState, []) :=
  forged_callback_stateMismatch demoState 99 [1, 2, 3] true (by decide) (by decide)

/-- C10: requestAggregateDecryption enforces no ownership or provider
authorization: its only possible revert reasons are Paused, CooldownActive,
InvalidBatch (empty batch) and BatchClosed (batch still open) - in
particular never NotOwner or NotProvider - and for every caller it succeeds
as soon as the contract is unpaused, the caller's request cooldown has
elapsed, dataCount > 0 and the batch is closed. -/
theorem requestReveal_no_auth (s : ContractState) (sender now reqId : Nat) :
    (∀ e, requestAggregateDecryption s sender now reqId = .error e →
      e ≠ .NotOwner ∧ e ≠ .NotProvider ∧
      (e = .Paused ∨ e = .CooldownActive ∨ e = .InvalidBatch ∨ e = .BatchClosed)) ∧
    (s.paused = false →
      s.lastDecryptionRequestTime sender + s.cooldownSeconds ≤ now →
      0 < s.dataCount → s.batchOpen = false →
      ∃ s' evs, requestAggregateDecryption s sender now reqId = .ok (s', evs)) := by
  constructor
  · intro e he
    unfold requestAggregateDecryption at he
    split at he
    · simp only [Except.error.injEq] at he
      subst he
      decide
    · split at he
      · simp only [Except.error.injEq] at he
        subst he
        decide
      · split at he
        · simp only [Except.error.injEq] at he
          subst he
          decide
        · split at he
          · simp only [Except.error.injEq] at he
            subst he
            decide
          · cases he
  · intro hp hcd hd hopen
    unfold requestAggregateDecryption
    simp [hp, hopen, Nat.not_lt.mpr hcd, Nat.pos_iff_ne_zero.mp hd]

/-- Witness for C10: a paused contract rejects with Paused (not an
authorization error), and a non-provider, non-owner caller (address 2)
succeeds on demoState. -/
theorem requestReveal_no_auth_witness :
    ((Err.Paused ≠ Err.NotOwner ∧ Err.Paused ≠ Err.NotProvider ∧
      (Err.Paused = Err.Paused ∨ Err.Paused = Err.CooldownActive ∨
        Err.Paused = Err.InvalidBatch ∨ Err.Paused = Err.BatchClosed)) ∧
    ∃ s' evs, requestAggregateDecryption demoState 2 100 5 = .ok (s', evs)) := by
  constructor
  · exact (requestReveal_no_auth { demoState with paused := true } 1 100 5).1
      Err.Paused (by rfl)
  · exact (requestReveal_no_auth demoState 2 100 5).2 (by rfl) (by decide)
      (by decide) (by rfl)

/-- An Except value over pairs that is not an error is a success. -/
theorem exists_ok_pair {E S T : Type _} (v : Except E (S × T))
    (h : ∀ e, v ≠ Except.error e) : ∃ a b, v = .ok (a, b) := by
  cases v with
  | ok p => exact ⟨p.1, p.2, rfl⟩
  | error e => exact absurd rfl (h e)

/-- A submission with fresh handles and the FHE subsystem available
succeeds whenever the caller is a provider, the contract is unpaused, the
batch is open and the submission cooldown has elapsed; it appends the
contribution under id dataCount + 1 and stamps the cooldown timer. -/
theorem submitEncryptedData_ok (s : ContractState) (sender now : Nat)
    (d : EU32) (f : EBool)
    (hprov : s.isProvider sender = true) (hp : s.paused = false)
    (hopen : s.batchOpen = true)
    (hcd : s.lastSubmissionTime sender + s.cooldownSeconds ≤ now) :
    submitEncryptedData s sender now d f false false true =
      .ok ({ s with
        dataCount := s.dataCount + 1
        encryptedData := fun i => if i = s.dataCount + 1 then d else s.encryptedData i
        encryptedFlags := fun i => if i = s.dataCount + 1 then f else s.encryptedFlags i
        lastSubmissionTime := fun a => if a = sender then now else s.lastSubmissionTime a },
        [Event.DataSubmitted sender s.currentBatchId (s.dataCount + 1)]) := by
  unfold submitEncryptedData
  simp [hprov, hp, hopen, Nat.not_lt.mpr hcd]

/-- C3: myCallback is atomic.  Every failing invocation reverts: the state is
kept unchanged and no event is emitted.  Every successful invocation changes
nothing except flipping the processed latch of the callback's own request id
to true, and emits exactly one DecryptionCompleted event for that id. -/
theorem myCallback_atomic (s : ContractState) (reqId : Nat) (ct : List Nat) (pf : Bool) :
    (∀ e, myCallback s reqId ct pf = .error e →
      applyOp s (Op.callback reqId ct pf) = (s, [])) ∧
    (∀ s' evs, myCallback s reqId ct pf = .ok (s', evs) →
      (s'.decryptionContexts reqId).processed = true ∧
      (s'.decryptionContexts reqId).batchId = (s.decryptionContexts reqId).batchId ∧
      (s'.decryptionContexts reqId).stateHash = (s.decryptionContexts reqId).stateHash ∧
      (∀ r, r ≠ reqId → s'.decryptionContexts r = s.decryptionContexts r) ∧
      s'.owner = s.owner ∧ s'.isProvider = s.isProvider ∧
      s'.lastSubmissionTime = s.lastSubmissionTime ∧
      s'.lastDecryptionRequestTime = s.lastDecryptionRequestTime ∧
      s'.cooldownSeconds = s.cooldownSeconds ∧ s'.paused = s.paused ∧
      s'.currentBatchId = s.currentBatchId ∧ s'.batchOpen = s.batchOpen ∧
      s'.encryptedData = s.encryptedData ∧ s'.encryptedFlags = s.encryptedFlags ∧
      s'.dataCount = s.dataCount ∧ s'.self = s.self ∧
      ∃ res fl, evs = [Event.DecryptionCompleted reqId
        (s.decryptionContexts reqId).batchId res fl]) := by
  constructor
  · intro e he
    simp only [applyOp, exec]
    rw [he]
  · intro s' evs h
    simp only [myCallback] at h
    repeat' split at h
    all_goals try cases h
    refine ⟨by simp, by simp, by simp, ?_, rfl, rfl, rfl, rfl, rfl, rfl, rfl, rfl, rfl,
      rfl, rfl, rfl, ⟨_, _, rfl⟩⟩
    intro r hr
    simp [hr]

/-- Witness for C3: the forged callback 99 on demoState reverts leaving the
state untouched, and the genuine callback 5 on requestedState finalizes with
the latch set. -/
theorem myCallback_atomic_witness :
    applyOp demoState (Op.callback 99 [] true) = (demoState, []) ∧
    ((applyOp requestedState (Op.callback 5 [20, 1, 0] true)).1.decryptionContexts 5).processed
      = true := by
  constructor
  · exact (myCallback_atomic demoState 99 [] true).1 .StateMismatch (by rfl)
  · exact ((myCallback_atomic requestedState 5 [20, 1, 0] true).2
      (applyOp requestedState (Op.callback 5 [20, 1, 0] true)).1
      (applyOp requestedState (Op.callback 5 [20, 1, 0] true)).2 (by rfl)).1

/-- C8: with a 60 second cooldown, a provider submitting successfully at
time t has the timer stamped to t; any second submission strictly before
t + 60 reverts with CooldownActive; a submission at or after t + 60
succeeds; and (with fresh handles, subsystem available, batch open, not
paused) the second submission fails with CooldownActive exactly when its
timestamp is below t + 60, which is lastSubmissionTime[sender] +
cooldownSeconds after the first call. -/
theorem submission_cooldown_scenario (s : ContractState) (sender t : Nat)
    (d : EU32) (f : EBool)
    (hcool : s.cooldownSeconds = 60)
    (hprov : s.isProvider sender = true)
    (hp : s.paused = false)
    (hopen : s.batchOpen = true)
    (hcd : s.lastSubmissionTime sender + 60 ≤ t) :
    ∃ s₁ evs, submitEncryptedData s sender t d f false false true = .ok (s₁, evs) ∧
      s₁.lastSubmissionTime sender = t ∧
      (∀ tm dm fm dim fim fhm, tm < t + 60 →
        submitEncryptedData s₁ sender tm dm fm dim fim fhm = .error .CooldownActive) ∧
      (∀ tm dm fm, t + 60 ≤ tm →
        ∃ s₂ evs₂, submitEncryptedData s₁ sender tm dm fm false false true = .ok (s₂, evs₂)) ∧
      (∀ tm dm fm,
        submitEncryptedData s₁ sender tm dm fm false false true = .error .CooldownActive ↔
          tm < t + 60) := by
  have hcd0 : s.lastSubmissionTime sender + s.cooldownSeconds ≤ t := by
    rw [hcool]
    exact hcd
  refine ⟨_, _, submitEncryptedData_ok s sender t d f hprov hp hopen hcd0, by simp,
    ?_, ?_, ?_⟩
  · intro tm dm fm dim fim fhm hlt
    unfold submitEncryptedData
    simp [hprov, hp, hcool, hlt]
  · intro tm dm fm hge
    refine exists_ok_pair _ ?_
    intro e heq
    unfold submitEncryptedData at heq
    simp [hprov, hp, hopen, hcool, Nat.not_lt.mpr hge] at heq
  · intro tm dm fm
    rcases Nat.lt_or_ge tm (t + 60) with hlt | hge
    · refine iff_of_true ?_ hlt
      unfold submitEncryptedData
      simp [hprov, hp, hcool, hlt]
    · refine iff_of_false ?_ (Nat.not_lt.mpr hge)
      intro heq
      unfold submitEncryptedData at heq
      simp [hprov, hp, hopen, hcool, Nat.not_lt.mpr hge] at heq

/-- Witness for C8 on openDemoState: a submission at t = 100 succeeds, a
second one at 130 reverts with CooldownActive, and one at 160 succeeds. -/
theorem submission_cooldown_scenario_witness :
    ∃ s₁ evs,
      submitEncryptedData openDemoState 1 100 (EU32.asEuint32 7) (EBool.asEbool false)
        false false true = .ok (s₁, evs) ∧
      submitEncryptedData s₁ 1 130 (EU32.asEuint32 8) (EBool.asEbool true)
        false false true = .error .CooldownActive ∧
      ∃ s₂ evs₂, submitEncryptedData s₁ 1 160 (EU32.asEuint32 8) (EBool.asEbool true)
        false false true = .ok (s₂, evs₂) := by
  obtain ⟨s₁, evs, hok, hstamp, hfail, hsucc, hiff⟩ :=
    submission_cooldown_scenario openDemoState 1 100 (EU32.asEuint32 7) (EBool.asEbool false)
      (by rfl) (by decide) (by rfl) (by rfl) (by decide)
  exact ⟨s₁, evs, hok, hfail 130 _ _ false false true (by decide), hsucc 160 _ _ (by decide)⟩

/-- The state produced by a successful callback: only the processed latch of
the request id flips to true. -/
def finalizeContext (s : ContractState) (reqId : Nat) : ContractState :=
  { s with decryptionContexts := fun r =>
      if r = reqId then { s.decryptionContexts reqId with processed := true }
      else s.decryptionContexts r }

/-- Shape of a successful myCallback on a valid payload: context unprocessed,
commitment matching, proof accepted, at least three cleartext words with a
boolean-decodable second word.  The emitted event carries the words in
packing order: word 0 (average) and word 2 (isAverageHigh) as the numeric
results, word 1 (anyFlagTrue) as the single boolean flag. -/
theorem myCallback_ok_eq (s : ContractState) (reqId w0 w1 w2 : Nat) (rest : List Nat)
    (hproc : (s.decryptionContexts reqId).processed = false)
    (hhash : (s.decryptionContexts reqId).stateHash = hashCiphertexts (outputCts s) s.self)
    (hw1 : w1 ≤ 1) :
    myCallback s reqId (w0 :: w1 :: w2 :: rest) true =
      .ok (finalizeContext s reqId,
        [Event.DecryptionCompleted reqId (s.decryptionContexts reqId).batchId
          [w0, w2] [decide (w1 = 1)]]) := by
  have hdec : decodeBoolWord (w0 :: w1 :: w2 :: rest) 1 = .ok (decide (w1 = 1)) := by
    rcases Nat.le_one_iff_eq_zero_or_eq_one.mp hw1 with rfl | rfl <;> rfl
  unfold myCallback finalizeContext
  rw [hhash]
  simp [hproc, decodeUint, hdec]

/-- After finalization the latch of the request id reads true. -/
theorem finalizeContext_processed (s : ContractState) (reqId : Nat) :
    ((finalizeContext s reqId).decryptionContexts reqId).processed = true := by
  simp [finalizeContext]

/-- Once the latch of a request id is set, myCallback rejects that id with
ReplayAttempt whatever the payload. -/
theorem myCallback_replay (s : ContractState) (reqId : Nat) (ct : List Nat) (pf : Bool)
    (hp : (s.decryptionContexts reqId).processed = true) :
    myCallback s reqId ct pf = .error .ReplayAttempt := by
  unfold myCallback
  simp [hp]

/-- C1: for a stored decryption context with processed = false and a valid
payload (matching commitment, accepted proof, decodable cleartext), the
first myCallback finalizes the context - processed becomes true - and every
further call for the same requestId reverts with ReplayAttempt, leaving the
state and the emitted event set unchanged; the latch then stays true over
every transaction sequence that contains no request reusing that id (request
ids are oracle-assigned and assumed fresh). -/
theorem handleCallback_once (s : ContractState) (reqId w0 w1 w2 : Nat) (rest : List Nat)
    (hproc : (s.decryptionContexts reqId).processed = false)
    (hhash : (s.decryptionContexts reqId).stateHash = hashCiphertexts (outputCts s) s.self)
    (hw1 : w1 ≤ 1) :
    ∃ s₁ evs, myCallback s reqId (w0 :: w1 :: w2 :: rest) true = .ok (s₁, evs) ∧
      (s₁.decryptionContexts reqId).processed = true ∧
      (∀ ct pf, myCallback s₁ reqId ct pf = .error .ReplayAttempt) ∧
      (∀ ct pf, applyOp s₁ (Op.callback reqId ct pf) = (s₁, [])) ∧
      (∀ ops : List Op, (∀ sender now, Op.request sender now reqId ∉ ops) →
        ((runTrace s₁ ops).1.decryptionContexts reqId).processed = true) := by
  refine ⟨finalizeContext s reqId, _,
    myCallback_ok_eq s reqId w0 w1 w2 rest hproc hhash hw1,
    finalizeContext_processed s reqId, ?_, ?_, ?_⟩
  · intro ct pf
    exact myCallback_replay _ reqId ct pf (finalizeContext_processed s reqId)
  · intro ct pf
    simp only [applyOp, exec]
    rw [myCallback_replay _ reqId ct pf (finalizeContext_processed s reqId)]
  · intro ops hno
    exact runTrace_processed_mono ops _ reqId (finalizeContext_processed s reqId) hno

/-- Witness for C1 on the genuine request 5 of requestedState, with the
replay attempt exercised concretely and the latch surviving a further
open-batch and callback transaction. -/
theorem handleCallback_once_witness :
    ∃ s₁ evs, myCallback requestedState 5 [20, 1, 0] true = .ok (s₁, evs) ∧
      (s₁.decryptionContexts 5).processed = true ∧
      myCallback s₁ 5 [20, 1, 0] true = .error .ReplayAttempt ∧
      applyOp s₁ (Op.callback 5 [20, 1, 0] true) = (s₁, []) ∧
      ((runTrace s₁ [Op.openBatch 1, Op.callback 5 [20, 1, 0] true]).1.decryptionContexts
        5).processed = true := by
  obtain ⟨s₁, evs, h1, h2, h3, h4, h5⟩ :=
    handleCallback_once requestedState 5 20 1 0 [] (by decide) (by decide) (by decide)
  refine ⟨s₁, evs, h1, h2, h3 _ _, h4 _ _, h5 _ ?_⟩
  intro sender now hmem
  simp [List.mem_cons] at hmem

/-- C6 counterexample: the claim says the cleartext is decoded into three
results with anyFlagSet AND thresholdExceeded both as booleans.  On the
concrete valid callback (requestedState, request id 5, cleartext words
[20, 1, 0]) the code instead emits DecryptionCompleted with TWO numeric
results [20, 0] (average and isAverageHigh decoded as uint256) and a SINGLE
boolean flag [true]: no event of the claimed shape - one numeric result and
two boolean flags - is emitted. -/
theorem callback_decode_counterexample :
    emittedEvents (myCallback requestedState 5 [20, 1, 0] true) =
      [Event.DecryptionCompleted 5 1 [20, 0] [true]] ∧
    ¬ ∃ (bid n : Nat) (b₁ b₂ : Bool),
      emittedEvents (myCallback requestedState 5 [20, 1, 0] true) =
        [Event.DecryptionCompleted 5 bid [n] [b₁, b₂]] := by
  have hev : emittedEvents (myCallback requestedState 5 [20, 1, 0] true) =
      [Event.DecryptionCompleted 5 1 [20, 0] [true]] := by decide
  refine ⟨hev, ?_⟩
  rintro ⟨bid, n, b₁, b₂, h⟩
  rw [hev] at h
  simp at h

/-- C6 as amended: a successful myCallback decodes the cleartext in exactly
the byte order the outputs were packed by requestAggregateDecryption -
word 0 = average, word 1 = anyFlagTrue, word 2 = isAverageHigh - but places
average AND isAverageHigh as the two numeric uint256 results and only
anyFlagTrue as a boolean flag (the source decodes isAverageHigh as a
uint256, per its own comment "isAverageHigh (bool as uint256)"). -/
theorem callback_decode_order (s : ContractState) (reqId w0 w1 w2 : Nat)
    (rest : List Nat) (pf : Bool)
    (hproc : (s.decryptionContexts reqId).processed = false)
    (hhash : (s.decryptionContexts reqId).stateHash = hashCiphertexts (outputCts s) s.self)
    (hpf : pf = true) (hw1 : w1 ≤ 1) :
    myCallback s reqId (w0 :: w1 :: w2 :: rest) pf =
      .ok (finalizeContext s reqId,
        [Event.DecryptionCompleted reqId (s.decryptionContexts reqId).batchId
          [w0, w2] [decide (w1 = 1)]]) ∧
    outputCts s = [Ct.ofEU32 ((foldAgg s s.dataCount).1.div (foldAgg s s.dataCount).2.1),
      Ct.ofEBool (foldAgg s s.dataCount).2.2,
      Ct.ofEBool (EBool.ge ((foldAgg s s.dataCount).1.div (foldAgg s s.dataCount).2.1)
        (EU32.asEuint32 100))] := by
  subst hpf
  exact ⟨myCallback_ok_eq s reqId w0 w1 w2 rest hproc hhash hw1, rfl⟩

/-- Witness for the amended C6 at the concrete valid callback. -/
theorem callback_decode_order_witness :
    myCallback requestedState 5 [20, 1, 0] true =
      .ok (finalizeContext requestedState 5,
        [Event.DecryptionCompleted 5 (requestedState.decryptionContexts 5).batchId
          [20, 0] [decide ((1 : Nat) = 1)]]) ∧
    outputCts requestedState =
      [Ct.ofEU32 ((foldAgg requestedState requestedState.dataCount).1.div
        (foldAgg requestedState requestedState.dataCount).2.1),
      Ct.ofEBool (foldAgg requestedState requestedState.dataCount).2.2,
      Ct.ofEBool (EBool.ge ((foldAgg requestedState requestedState.dataCount).1.div
        (foldAgg requestedState requestedState.dataCount).2.1) (EU32.asEuint32 100))] :=
  callback_decode_order requestedState 5 20 1 0 [] true (by decide) (by decide) rfl
    (by decide)

/-- C7: over every transaction sequence (submissions interleaved with batch
opens and closes, or any other operations), the ids carried by the
DataSubmitted events are exactly the consecutive range dataCount + 1 ... of
the growing counter, and from the freshly deployed contract they are exactly
1..dataCount: strictly increasing, no gaps, never reused, independent of
batch boundaries. -/
theorem contribution_ids_sequential (ops : List Op) (deployer self : Nat) :
    (∀ s : ContractState,
      s.dataCount ≤ (runTrace s ops).1.dataCount ∧
      submittedIds (runTrace s ops).2 =
        List.range' (s.dataCount + 1) ((runTrace s ops).1.dataCount - s.dataCount)) ∧
    submittedIds (runTrace (initialState deployer self) ops).2 =
      List.range' 1 (runTrace (initialState deployer self) ops).1.dataCount := by
  refine ⟨runTrace_submittedIds ops, ?_⟩
  have h := (runTrace_submittedIds ops (initialState deployer self)).2
  simpa [initialState] using h

/-- A callback on a context whose stored commitment was computed over a
state with a different dataCount reverts with StateMismatch: the re-folded
count handle differs, hence the recomputed keccak commitment differs. -/
theorem callback_mismatch_of_ctx (s2 s₀ : ContractState) (reqId : Nat)
    (ct : List Nat) (pf : Bool)
    (hctx : s2.decryptionContexts reqId =
      ⟨s₀.currentBatchId, hashCiphertexts (outputCts s₀) s₀.self, false⟩)
    (hdc : s2.dataCount ≠ s₀.dataCount) :
    myCallback s2 reqId ct pf = .error .StateMismatch := by
  have hne := hash_ne_of_dataCount_ne hdc
  unfold myCallback
  rw [hctx]
  simp [hne]

/-- C2: if after a successful requestAggregateDecryption any transaction
sequence not reusing the request id admits a new contribution (dataCount
grows - and only submitEncryptedData transactions ever change dataCount, the
first conjunct), then myCallback for that request id reverts with
StateMismatch whatever cleartext and proof are supplied: the commitment
recomputed from current storage no longer equals the stored one. -/
theorem submission_invalidates_callback (s₀ s₁ : ContractState)
    (requester nowR reqId : Nat) (evR : List Event)
    (hreq : requestAggregateDecryption s₀ requester nowR reqId = .ok (s₁, evR))
    (ops : List Op)
    (hnoreq : ∀ sender now, Op.request sender now reqId ∉ ops)
    (hnocb : ∀ ct2 pf2, Op.callback reqId ct2 pf2 ∉ ops)
    (hgrow : s₁.dataCount < (runTrace s₁ ops).1.dataCount)
    (ct : List Nat) (pf : Bool) :
    (∀ (u : ContractState) (op : Op), u.dataCount ≠ (applyOp u op).1.dataCount →
      ∃ sender now d f di fi fh, op = Op.submit sender now d f di fi fh) ∧
    myCallback (runTrace s₁ ops).1 reqId ct pf = .error .StateMismatch := by
  constructor
  · intro u op hne
    cases h : exec u op with
    | error e =>
      have ha : applyOp u op = (u, []) := by unfold applyOp; rw [h]
      rw [ha] at hne
      exact absurd rfl hne
    | ok p =>
      have ha : applyOp u op = p := by unfold applyOp; rw [h]
      have hf := exec_ok_facts (show exec u op = Except.ok (p.1, p.2) from h)
      by_contra hns
      push_neg at hns
      rw [ha] at hne
      exact hne ((hf.1 hns).1).symm
  · unfold requestAggregateDecryption at hreq
    split at hreq
    · cases hreq
    · split at hreq
      · cases hreq
      · split at hreq
        · cases hreq
        · split at hreq
          · cases hreq
          · simp only [Except.ok.injEq, Prod.mk.injEq] at hreq
            obtain ⟨hs1, hev⟩ := hreq
            have h0 : s₁.dataCount = s₀.dataCount := by
              rw [← hs1]
            have hctx1 : s₁.decryptionContexts reqId =
                ⟨s₀.currentBatchId, hashCiphertexts (outputCts s₀) s₀.self, false⟩ := by
              rw [← hs1]
              simp
            have hpres := runTrace_decryptionContexts ops s₁ reqId hnoreq hnocb
            have hdcne : (runTrace s₁ ops).1.dataCount ≠ s₀.dataCount := by omega
            exact callback_mismatch_of_ctx (runTrace s₁ ops).1 s₀ reqId ct pf
              (hpres.trans hctx1) hdcne

/-- Witness for C2: after the genuine request 5, the owner reopens the batch
and submits one more contribution; the callback then reverts with
StateMismatch even though its payload was the originally valid one. -/
theorem submission_invalidates_callback_witness :
    myCallback (runTrace requestedState
      [Op.openBatch 1,
        Op.submit 1 200 (EU32.asEuint32 4) (EBool.asEbool false) false false true]).1
      5 [20, 1, 0] true = .error .StateMismatch := by
  have h := submission_invalidates_callback demoState requestedState 1 100 5
    ((applyOp demoState (Op.request 1 100 5)).2) (by rfl)
    [Op.openBatch 1,
      Op.submit 1 200 (EU32.asEuint32 4) (EBool.asEbool false) false false true]
    (by intro a b hmem; simp [List.mem_cons] at hmem)
    (by intro ct2 pf2 hmem; simp [List.mem_cons] at hmem)
    (by decide) [20, 1, 0] true
  exact h.2

end FheAsAService

